import Mathlib

/-!
Verification development for the SecretShare-CF repository.

Shallow embedding of the core logic of `src/worker.ts` (secret lifecycle
controller, anti-forgery token service, identifier scheme) and
`frontend/crypto.js` (encryption engine, base64url codec), together with
theorems settling the specification claims about them.

Modelling conventions:
* JavaScript `number` fields are embedded as `ℚ` where non-integral values
  matter (the create path), and as `ℕ` in the lifecycle model, matching the
  spec's `SecretRecord` field types (`maxViews : uint`, `viewCount : uint`).
* Byte sequences are `List ℕ` with an explicit `< 256` bound where the code
  relies on bytes.
* Platform crypto primitives (SHA-256, HMAC-SHA256, AES-GCM) are not code of
  this repository; they enter the embedding as function parameters, with their
  defining properties (e.g. AEAD round trip) as explicit hypotheses.
* Fallible operations return `Option`; a caught-and-logged KV failure is an
  explicit `Bool` parameter on the step that performs the store mutation.
-/

namespace SecretShare

/-! ## Secret lifecycle controller (`handleRetrieveSecret`, worker.ts 184-283)

The retrieval path, after JSON parsing and CSRF validation have succeeded:
look the record up by the hashed id, return 404 when absent, defensively
delete and return 410 when `viewCount >= maxViews`, otherwise increment the
in-memory view count, delete the record on the final view (or write the
incremented record back), and answer with the envelope and the incremented
accounting fields.  The store holds at most one record per key; since every
claim concerns a single external id, the store is modelled as
`Option SecretData` for that one key. -/

/-- The stored secret record (`interface SecretData`, worker.ts 7-12), with
the spec's uint field types (§3: `maxViews: uint (1..=100)`,
`viewCount: uint (0..=maxViews)`). -/
structure SecretData where
  encryptedData : String
  maxViews : ℕ
  viewCount : ℕ
  createdAt : ℕ
deriving DecidableEq, Repr

/-- Outcome of one retrieve call, restricted to the part of
`handleRetrieveSecret` after CSRF validation: 404 (`notFound`), 410
(`exhausted`), the 500 produced when the defensive delete at worker.ts 245
throws outside any try/catch, and the 200 payload carrying the envelope and
the view accounting (worker.ts 274-282). -/
inductive Outcome where
  | notFound
  | exhausted
  | serverError
  | success (encryptedData : String) (viewCount : ℕ) (maxViews : ℕ)
      (isLastView : Bool) (createdAt : ℕ)
deriving DecidableEq, Repr

/-- The body of `handleRetrieveSecret` from the KV `get` onwards
(worker.ts 226-282), split at the read so that concurrent interleavings can
be expressed: `readVal` is what the KV `get` returned, `store` is the store
content at the moment the writes run.  `mutOk` is true when this call's KV
mutation (the `delete` or the `put`) does not throw; the post-increment
delete/put are wrapped in try/catch (worker.ts 259-272), so on failure the
call still answers 200, while the defensive delete (worker.ts 245) is not
wrapped and a throw there escapes to the top-level handler as a 500. -/
def finishRetrieve (readVal : Option SecretData) (store : Option SecretData)
    (mutOk : Bool) : Outcome × Option SecretData :=
  match readVal with
  | none => (.notFound, store)
  | some d =>
    if d.maxViews ≤ d.viewCount then
      if mutOk then (.exhausted, none) else (.serverError, store)
    else
      let d' : SecretData := { d with viewCount := d.viewCount + 1 }
      if d.maxViews ≤ d'.viewCount then
        (.success d.encryptedData d'.viewCount d.maxViews
            (decide (d.maxViews ≤ d'.viewCount)) d.createdAt,
          if mutOk then none else store)
      else
        (.success d.encryptedData d'.viewCount d.maxViews
            (decide (d.maxViews ≤ d'.viewCount)) d.createdAt,
          if mutOk then some d' else store)

/-- One complete sequential retrieve call: the KV `get` observes the current
store and the writes run against that same state. -/
def retrieveStepF (s : Option SecretData) (mutOk : Bool) :
    Outcome × Option SecretData :=
  finishRetrieve s s mutOk

/-- A sequential retrieve call whose KV mutation succeeds. -/
def retrieveStep (s : Option SecretData) : Outcome × Option SecretData :=
  retrieveStepF s true

/-- A sequence of `n` sequential retrieve calls against the same record,
returning the list of outcomes and the final store state. -/
def run : ℕ → Option SecretData → List Outcome × Option SecretData
  | 0, s => ([], s)
  | n + 1, s =>
    let p := retrieveStep s
    let q := run n p.2
    (p.1 :: q.1, q.2)

/-- Whether an outcome returned the stored envelope. -/
def isSuccess : Outcome → Bool
  | .success _ _ _ _ _ => true
  | _ => false

/-- Number of calls in a run that returned the stored envelope. -/
def countSuccess (os : List Outcome) : ℕ :=
  (os.filter fun o => isSuccess o).length

/-- A freshly created record for envelope `e`: `viewCount = 0`
(worker.ts 155), limit `m`, creation time `t`. -/
def initRecord (e : String) (m t : ℕ) : Option SecretData :=
  some ⟨e, m, 0, t⟩

theorem countSuccess_cons_success (e : String) (v m : ℕ) (lv : Bool) (t : ℕ)
    (os : List Outcome) :
    countSuccess (Outcome.success e v m lv t :: os) = countSuccess os + 1 := by
  simp [countSuccess, isSuccess, List.filter_cons]

theorem countSuccess_cons_notFound (os : List Outcome) :
    countSuccess (Outcome.notFound :: os) = countSuccess os := by
  simp [countSuccess, isSuccess, List.filter_cons]

theorem countSuccess_cons_exhausted (os : List Outcome) :
    countSuccess (Outcome.exhausted :: os) = countSuccess os := by
  simp [countSuccess, isSuccess, List.filter_cons]

theorem run_none (b : ℕ) :
    run b (none : Option SecretData) = (List.replicate b .notFound, none) := by
  induction b with
  | zero => rfl
  | succ n ih =>
    simp [run, retrieveStep, retrieveStepF, finishRetrieve, ih, List.replicate]

theorem countSuccess_run_none (b : ℕ) :
    countSuccess (run b (none : Option SecretData)).1 = 0 := by
  rw [run_none b]
  induction b with
  | zero => rfl
  | succ n ih =>
    simp only [List.replicate, countSuccess_cons_notFound]
    exact ih

/-- Unfolding of a retrieve step on a record that still has views left but is
not on its last view. -/
theorem run_succ_continue (n : ℕ) (d : SecretData)
    (hex : d.viewCount < d.maxViews) (hlast : ¬ d.maxViews ≤ d.viewCount + 1) :
    run (n + 1) (some d) =
      (.success d.encryptedData (d.viewCount + 1) d.maxViews
          (decide (d.maxViews ≤ d.viewCount + 1)) d.createdAt
        :: (run n (some { d with viewCount := d.viewCount + 1 })).1,
        (run n (some { d with viewCount := d.viewCount + 1 })).2) := by
  simp [run, retrieveStep, retrieveStepF, finishRetrieve,
    Nat.not_le.mpr hex, hlast]

/-- Unfolding of a retrieve step on a record whose last view this is. -/
theorem run_succ_last (n : ℕ) (d : SecretData)
    (hex : d.viewCount < d.maxViews) (hlast : d.maxViews ≤ d.viewCount + 1) :
    run (n + 1) (some d) =
      (.success d.encryptedData (d.viewCount + 1) d.maxViews
          (decide (d.maxViews ≤ d.viewCount + 1)) d.createdAt
        :: (run n none).1, (run n none).2) := by
  simp [run, retrieveStep, retrieveStepF, finishRetrieve,
    Nat.not_le.mpr hex, hlast]

/-- Unfolding of a retrieve step on an already-exhausted record. -/
theorem run_succ_exhausted (n : ℕ) (d : SecretData)
    (hex : d.maxViews ≤ d.viewCount) :
    run (n + 1) (some d) =
      (.exhausted :: (run n none).1, (run n none).2) := by
  simp [run, retrieveStep, retrieveStepF, finishRetrieve, hex]

theorem countSuccess_run_le (n : ℕ) :
    ∀ d : SecretData,
      countSuccess (run n (some d)).1 ≤ d.maxViews - d.viewCount := by
  induction n with
  | zero => intro d; simp [run, countSuccess]
  | succ n ih =>
    intro d
    by_cases hex : d.maxViews ≤ d.viewCount
    · rw [run_succ_exhausted n d hex]
      simp only [countSuccess_cons_exhausted, countSuccess_run_none]
      exact Nat.zero_le _
    · push_neg at hex
      by_cases hlast : d.maxViews ≤ d.viewCount + 1
      · rw [run_succ_last n d hex hlast]
        simp only [countSuccess_cons_success, countSuccess_run_none]
        omega
      · rw [run_succ_continue n d hex hlast]
        have hle := ih { d with viewCount := d.viewCount + 1 }
        simp only [countSuccess_cons_success]
        simp only at hle
        omega

theorem run_state (n : ℕ) :
    ∀ d : SecretData,
      (run n (some d)).2 = none ∨
        ((run n (some d)).2 =
            some ⟨d.encryptedData, d.maxViews,
              d.viewCount + countSuccess (run n (some d)).1, d.createdAt⟩ ∧
          (countSuccess (run n (some d)).1 = 0 ∨
            d.viewCount + countSuccess (run n (some d)).1 < d.maxViews)) := by
  induction n with
  | zero =>
    intro d
    right
    refine ⟨?_, Or.inl rfl⟩
    simp [run, countSuccess]
  | succ n ih =>
    intro d
    by_cases hex : d.maxViews ≤ d.viewCount
    · left
      rw [run_succ_exhausted n d hex]
      rw [run_none n]
    · push_neg at hex
      by_cases hlast : d.maxViews ≤ d.viewCount + 1
      · left
        rw [run_succ_last n d hex hlast]
        rw [run_none n]
      · rcases ih { d with viewCount := d.viewCount + 1 } with h | ⟨h1, h2⟩
        · left
          rw [run_succ_continue n d hex hlast]
          exact h
        · right
          rw [run_succ_continue n d hex hlast]
          simp only at h1 h2
          simp only [countSuccess_cons_success]
          push_neg at hlast
          constructor
          · rw [h1]
            simp only [Option.some.injEq, SecretData.mk.injEq,
              true_and, and_true]
            omega
          · rcases h2 with h2 | h2
            · right; omega
            · right; omega

/-- Every outcome of a run started from an empty store is `notFound`. -/
theorem run_none_mem (b : ℕ) (o : Outcome)
    (ho : o ∈ (run b (none : Option SecretData)).1) : o = .notFound := by
  rw [run_none b] at ho
  exact List.eq_of_mem_replicate ho

/-- C1.  View-limit invariant for sequential retrieval: starting from a fresh
record with limit `m ≥ 1`, no run of retrieve calls ever returns the stored
envelope more than `m` times; and once some prefix of `a` calls has produced
`m` envelope returns, every later call answers `notFound` or `exhausted`,
never an envelope.  This holds because the final view deletes the record and
the defensive branch deletes and reports `exhausted` whenever
`viewCount >= maxViews` is observed. -/
theorem retrieve_view_limit (e : String) (m t n a b : ℕ) (h1 : 1 ≤ m)
    (hm : countSuccess (run a (initRecord e m t)).1 = m) :
    countSuccess (run n (initRecord e m t)).1 ≤ m ∧
      ∀ o ∈ (run b (run a (initRecord e m t)).2).1,
        o = Outcome.notFound ∨ o = Outcome.exhausted := by
  constructor
  · have := countSuccess_run_le n (⟨e, m, 0, t⟩ : SecretData)
    simpa [initRecord] using this
  · have hstate := run_state a (⟨e, m, 0, t⟩ : SecretData)
    rcases hstate with h | ⟨_, h2⟩
    · intro o ho
      rw [initRecord] at *
      rw [h] at ho
      exact Or.inl (run_none_mem b o ho)
    · exfalso
      rw [initRecord] at hm
      rw [hm] at h2
      simp only at h2
      rcases h2 with h2 | h2 <;> omega

/-- Witness for `retrieve_view_limit`: a record with `maxViews = 1` yields
exactly one envelope in one call, and the two calls that follow error out. -/
theorem retrieve_view_limit_witness :
    countSuccess (run 3 (initRecord "env" 1 0)).1 ≤ 1 ∧
      ∀ o ∈ (run 2 (run 1 (initRecord "env" 1 0)).2).1,
        o = Outcome.notFound ∨ o = Outcome.exhausted :=
  retrieve_view_limit "env" 1 0 3 1 2 (by decide) (by decide)

/-! ## Concurrent retrieval (worker.ts 215-272)

`handleRetrieveSecret` performs a plain KV `get` (worker.ts 217), computes in
memory, and then issues an unconditional `delete` or `put` (worker.ts
259-272).  Cloudflare KV offers no compare-and-swap and the handler takes no
lock, so two concurrent calls may both read the record before either write
lands.  `interleavedDouble` is the admissible schedule
get₁ · get₂ · write₁ · write₂ of two concurrent retrieve calls: each KV
operation is individually atomic, but both reads observe the initial store. -/

/-- Two concurrent retrieve calls under the schedule in which both KV `get`s
complete before either call's `delete`/`put` runs.  Returns both outcomes and
the final store state. -/
def interleavedDouble (d : SecretData) : Outcome × Outcome × Option SecretData :=
  let s0 : Option SecretData := some d
  let r1 := s0
  let r2 := s0
  let p1 := finishRetrieve r1 s0 true
  let p2 := finishRetrieve r2 p1.2 true
  (p1.1, p2.1, p2.2)

/-- C2, counterexample.  Against a record with `maxViews = 1`, the
get-get-write-write interleaving of two concurrent retrieve calls returns the
stored envelope to BOTH callers: two successful envelope returns although
`maxViews = 1`.  The claim that at most `maxViews` of the concurrent calls
can return the envelope is therefore false of this code. -/
theorem concurrent_retrieve_cex :
    (interleavedDouble ⟨"env", 1, 0, 0⟩).1 =
        Outcome.success "env" 1 1 true 0 ∧
      (interleavedDouble ⟨"env", 1, 0, 0⟩).2.1 =
        Outcome.success "env" 1 1 true 0 := by
  decide

/-- C2, amended.  The implementation protects the view count by nothing at
all: it is an unprotected read-then-write, and under the interleaving in
which both concurrent calls read before either writes, both calls return the
stored envelope whenever the record has any views left — so `maxViews = 1`
admits two envelope returns, exceeding the limit. -/
theorem concurrent_retrieve_unprotected (e : String) (m t : ℕ) (hm : 0 < m) :
    isSuccess (interleavedDouble ⟨e, m, 0, t⟩).1 = true ∧
      isSuccess (interleavedDouble ⟨e, m, 0, t⟩).2.1 = true := by
  by_cases hlast : m ≤ 1
  · have h1 : m = 1 := by omega
    subst h1
    simp [interleavedDouble, finishRetrieve, isSuccess]
  · push_neg at hlast
    constructor
    · simp [interleavedDouble, finishRetrieve, Nat.not_le.mpr hm,
        Nat.not_le.mpr hlast, isSuccess]
    · simp [interleavedDouble, finishRetrieve, Nat.not_le.mpr hm,
        Nat.not_le.mpr hlast, isSuccess]

/-- Witness for `concurrent_retrieve_unprotected` at `maxViews = 1`. -/
theorem concurrent_retrieve_unprotected_witness :
    isSuccess (interleavedDouble ⟨"env", 1, 0, 0⟩).1 = true ∧
      isSuccess (interleavedDouble ⟨"env", 1, 0, 0⟩).2.1 = true :=
  concurrent_retrieve_unprotected "env" 1 0 (by decide)

/-! ## View accounting returned by retrieve (worker.ts 252-282)

The handler increments `secretData.viewCount` (worker.ts 253) and then builds
the response from the mutated object (worker.ts 274-282), so the `viewCount`
in the response is the post-increment value. -/

/-- C3, counterexample.  For a record with `viewCount = 0`, `maxViews = 2`,
the claim says the success response carries the pre-increment accounting,
i.e. `viewCount = 0`; the code returns `viewCount = 1`, the post-increment
value. -/
theorem retrieve_post_increment_cex :
    (retrieveStep (some ⟨"env", 2, 0, 7⟩)).1 ≠
        Outcome.success "env" 0 2 false 7 ∧
      (retrieveStep (some ⟨"env", 2, 0, 7⟩)).1 =
        Outcome.success "env" 1 2 false 7 := by
  decide

/-- C3, amended.  Every successful retrieve returns the envelope read at the
start of the operation together with the POST-increment view accounting: the
response's `viewCount` equals the record's `viewCount` plus one, and
`isLastView` is computed from that incremented value; "views remaining" for
the caller is therefore `maxViews` minus the returned `viewCount`, counting
the views left after this call. -/
theorem retrieve_post_increment (d : SecretData)
    (h : d.viewCount < d.maxViews) :
    (retrieveStep (some d)).1 =
      Outcome.success d.encryptedData (d.viewCount + 1) d.maxViews
        (decide (d.maxViews ≤ d.viewCount + 1)) d.createdAt := by
  by_cases hlast : d.maxViews ≤ d.viewCount + 1
  · simp [retrieveStep, retrieveStepF, finishRetrieve, Nat.not_le.mpr h, hlast]
  · simp [retrieveStep, retrieveStepF, finishRetrieve, Nat.not_le.mpr h, hlast]

/-- Witness for `retrieve_post_increment`. -/
theorem retrieve_post_increment_witness :
    (retrieveStep (some ⟨"env", 2, 0, 7⟩)).1 =
      Outcome.success "env" 1 2 (decide ((2 : ℕ) ≤ 0 + 1)) 7 :=
  retrieve_post_increment ⟨"env", 2, 0, 7⟩ (by decide)

/-! ## Store failures during retrieve are swallowed (worker.ts 258-282)

Both the delete-on-final-view and the write-back of the incremented record
are wrapped in try/catch blocks whose handlers only log; the function then
falls through to the 200 response. -/

/-- C9.  Once a retrieve call has passed the view-count check, it answers the
success response with the envelope whether or not the subsequent KV mutation
(the final-view `delete` or the `put` of the incremented record) succeeds;
when the mutation fails, the store still holds the old record, so the success
response does not guarantee that the view count was persisted or the record
deleted. -/
theorem retrieve_success_despite_store_failure (d : SecretData) (mutOk : Bool)
    (h : d.viewCount < d.maxViews) :
    (retrieveStepF (some d) mutOk).1 =
        Outcome.success d.encryptedData (d.viewCount + 1) d.maxViews
          (decide (d.maxViews ≤ d.viewCount + 1)) d.createdAt ∧
      (mutOk = false → (retrieveStepF (some d) mutOk).2 = some d) := by
  by_cases hlast : d.maxViews ≤ d.viewCount + 1
  · constructor
    · simp [retrieveStepF, finishRetrieve, Nat.not_le.mpr h, hlast]
    · intro hmut
      subst hmut
      simp [retrieveStepF, finishRetrieve, Nat.not_le.mpr h, hlast]
  · constructor
    · simp [retrieveStepF, finishRetrieve, Nat.not_le.mpr h, hlast]
    · intro hmut
      subst hmut
      simp [retrieveStepF, finishRetrieve, Nat.not_le.mpr h, hlast]

/-- Witness for `retrieve_success_despite_store_failure`: with the KV write
failing, the caller still receives the envelope and the record is unchanged. -/
theorem retrieve_success_despite_store_failure_witness :
    (retrieveStepF (some ⟨"env", 3, 1, 9⟩) false).1 =
        Outcome.success "env" 2 3 (decide ((3 : ℕ) ≤ 1 + 1)) 9 ∧
      (false = false → (retrieveStepF (some ⟨"env", 3, 1, 9⟩) false).2 =
        some ⟨"env", 3, 1, 9⟩) :=
  retrieve_success_despite_store_failure ⟨"env", 3, 1, 9⟩ false (by decide)

/-! ## Anti-forgery token service (worker.ts 286-331)

`generateCSRFToken` serialises `Date.now().toString()` plus the hex HMAC(
secret, timestamp) as `"<timestamp>.<hex>"`.  `validateCSRFToken` splits on
`'.'`, requires exactly two non-empty parts, computes
`tokenAge = Date.now() - parseInt(timestamp)`, rejects when
`tokenAge > 30*60*1000 || tokenAge < 0`, and finally compares the recomputed
hex HMAC against the provided signature.  The HMAC-SHA256-then-hex primitive
is a platform function; it enters the model as a parameter
`hmac : String → String → String` (secret, message ↦ hex signature).

`parseInt` on a string whose first character is not a digit returns `NaN`,
and both `NaN > x` and `NaN < 0` are false in JavaScript, so a non-numeric
timestamp part skips the age check entirely; the model renders `NaN` as
`none` and follows that control flow.  `parseIntJS` models `parseInt` for the
inputs that occur here: strings of decimal digits (the value of
`Date.now().toString()`) and strings with no leading digit (`NaN`). -/

/-- The decimal digit character for `d < 10`, as produced by JavaScript
number-to-string conversion. -/
def digitChar (d : ℕ) : Char := Char.ofNat (48 + d)

/-- Decimal printing of a natural number, the behaviour of
`Number.prototype.toString` on the integers produced by `Date.now()`. -/
def natToChars (n : ℕ) : List Char :=
  if _h : n < 10 then [digitChar n]
  else natToChars (n / 10) ++ [digitChar (n % 10)]
termination_by n
decreasing_by exact Nat.div_lt_self (by omega) (by omega)

/-- String form of `natToChars`. -/
def natToString (n : ℕ) : String := ⟨natToChars n⟩

/-- Numeric value of a decimal digit character. -/
def digitVal (c : Char) : ℕ := c.toNat - 48

/-- Value of a string of decimal digits. -/
def digitsVal (l : List Char) : ℕ :=
  l.foldl (fun a c => a * 10 + digitVal c) 0

/-- Model of JavaScript `parseInt` restricted to base 10 and no leading
whitespace or sign: take the maximal run of leading decimal digits; if it is
empty the result is `NaN`, modelled as `none`. -/
def parseIntJS (s : String) : Option ℕ :=
  let ds := s.data.takeWhile Char.isDigit
  if ds.isEmpty then none else some (digitsVal ds)

/-- JavaScript `String.prototype.split('.')`: cut the character list at every
dot, keeping empty pieces. -/
def splitOnDot : List Char → List (List Char)
  | [] => [[]]
  | c :: rest =>
    match splitOnDot rest with
    | [] => [[c]]
    | g :: gs => if c = '.' then [] :: g :: gs else (c :: g) :: gs

/-- `generateCSRFToken` (worker.ts 286-303): sign the decimal string of the
current time and serialise `"<timestamp>.<hex signature>"`. -/
def generateCSRFToken (hmac : String → String → String) (secret : String)
    (now : ℕ) : String :=
  natToString now ++ "." ++ hmac secret (natToString now)

/-- `validateCSRFToken` (worker.ts 305-331).  `now` is the validation-time
`Date.now()`.  A `parseInt` result of `NaN` (`none`) makes both age
comparisons false, so the age check is passed, exactly as in the source. -/
def validateCSRFToken (hmac : String → String → String) (secret : String)
    (token : String) (now : ℕ) : Bool :=
  match splitOnDot token.data with
  | [ts, sig] =>
    if ts = [] ∨ sig = [] then false
    else
      let ageRejects : Bool :=
        match parseIntJS ⟨ts⟩ with
        | some v =>
          decide ((now : ℤ) - (v : ℤ) > 30 * 60 * 1000 ∨ (now : ℤ) - (v : ℤ) < 0)
        | none => false
      if ageRejects then false
      else hmac secret ⟨ts⟩ == String.mk sig
  | _ => false

theorem strData_append (s t : String) : (s ++ t).data = s.data ++ t.data := by
  cases s; cases t; rfl

theorem strMk_data (s : String) : String.mk s.data = s := by
  cases s; rfl

theorem digitChar_isDigit (d : ℕ) (h : d < 10) :
    (digitChar d).isDigit = true := by
  interval_cases d <;> decide

theorem digitVal_digitChar (d : ℕ) (h : d < 10) :
    digitVal (digitChar d) = d := by
  interval_cases d <;> decide

theorem natToChars_ne_nil (n : ℕ) : natToChars n ≠ [] := by
  rw [natToChars]
  split
  · simp
  · simp

theorem natToChars_all_digits (n : ℕ) :
    ∀ c ∈ natToChars n, c.isDigit = true := by
  induction n using Nat.strong_induction_on with
  | _ n ih =>
    rw [natToChars]
    split
    · intro c hc
      rw [List.mem_singleton] at hc
      subst hc
      exact digitChar_isDigit n (by omega)
    · intro c hc
      rcases List.mem_append.mp hc with hc | hc
      · exact ih (n / 10) (Nat.div_lt_self (by omega) (by omega)) c hc
      · rw [List.mem_singleton] at hc
        subst hc
        exact digitChar_isDigit (n % 10) (Nat.mod_lt n (by omega))

theorem digitsVal_append_digit (l : List Char) (c : Char) :
    digitsVal (l ++ [c]) = digitsVal l * 10 + digitVal c := by
  simp [digitsVal, List.foldl_append]

theorem digitsVal_natToChars (n : ℕ) : digitsVal (natToChars n) = n := by
  induction n using Nat.strong_induction_on with
  | _ n ih =>
    rw [natToChars]
    split
    · next h =>
      simp [digitsVal, digitVal_digitChar n h]
    · next h =>
      rw [digitsVal_append_digit,
        ih (n / 10) (Nat.div_lt_self (by omega) (by omega)),
        digitVal_digitChar (n % 10) (Nat.mod_lt n (by omega))]
      omega

theorem parseIntJS_natToString (n : ℕ) :
    parseIntJS (natToString n) = some n := by
  have hall : (natToChars n).takeWhile Char.isDigit = natToChars n :=
    List.takeWhile_eq_self_iff.mpr (natToChars_all_digits n)
  have hne := natToChars_ne_nil n
  simp only [parseIntJS, natToString, hall]
  rw [if_neg (by simpa [List.isEmpty_iff] using hne)]
  rw [digitsVal_natToChars]

theorem natToChars_no_dot (n : ℕ) : '.' ∉ natToChars n := by
  intro hc
  have := natToChars_all_digits n '.' hc
  simp [Char.isDigit] at this

theorem splitOnDot_no_dot (l : List Char) (h : '.' ∉ l) :
    splitOnDot l = [l] := by
  induction l with
  | nil => rfl
  | cons c rest ih =>
    have hc : ¬ c = '.' := fun hcc => h (hcc ▸ List.mem_cons_self c rest)
    have hr : '.' ∉ rest := fun hm => h (List.mem_cons_of_mem c hm)
    simp [splitOnDot, ih hr, hc]

theorem splitOnDot_append (a b : List Char) (ha : '.' ∉ a) (hb : '.' ∉ b) :
    splitOnDot (a ++ '.' :: b) = [a, b] := by
  induction a with
  | nil =>
    simp [splitOnDot, splitOnDot_no_dot b hb]
  | cons c rest ih =>
    have hc : ¬ c = '.' := fun hcc => ha (hcc ▸ List.mem_cons_self c rest)
    have hr : '.' ∉ rest := fun hm => ha (List.mem_cons_of_mem c hm)
    simp [splitOnDot, ih hr, hc]

/-- C4, counterexample.  The claim says a token validates ONLY IF it is
well-formed as `"<issuedAt>.<hex signature>"` with the age within the
30-minute window.  The token `"x.aa"` has no numeric `issuedAt` at all
(`parseInt` yields `NaN`), yet under an HMAC primitive that signs `"x"` as
`"aa"` it validates at an arbitrarily late time, because the two `NaN`
comparisons in the age check are both false and the check is skipped. -/
theorem csrf_malformed_accepted_cex :
    validateCSRFToken (fun _ _ => "aa") "secret" "x.aa" 999999999999999 = true ∧
      parseIntJS "x" = none := by
  constructor
  · decide
  · decide

/-- C4, amended.  For every token produced by `generateCSRFToken` (whose
`issuedAt` is a decimal digit string) and every validation time, the token
validates iff its age `now - issuedAt` is non-negative and at most 30
minutes (boundary inclusive): it validates at `issuedAt + 29m59s` and fails
at `issuedAt + 30m01s`, and a future `issuedAt` fails.  For arbitrary token
strings the well-formedness conjunct of the original claim does not hold:
a two-part token whose timestamp has no leading digit bypasses the age check
(`NaN` comparisons) and validates on signature match alone
(`csrf_malformed_accepted_cex`). -/
theorem csrf_generated_token_window (hmac : String → String → String)
    (secret : String) (t now : ℕ)
    (hnd : '.' ∉ (hmac secret (natToString t)).data)
    (hne : hmac secret (natToString t) ≠ "") :
    validateCSRFToken hmac secret (generateCSRFToken hmac secret t) now = true ↔
      (t ≤ now ∧ (now : ℤ) - (t : ℤ) ≤ 30 * 60 * 1000) := by
  have hdata : (generateCSRFToken hmac secret t).data =
      natToChars t ++ '.' :: (hmac secret (natToString t)).data := by
    simp only [generateCSRFToken, strData_append, List.append_assoc]
    rfl
  have hsplit : splitOnDot (generateCSRFToken hmac secret t).data =
      [natToChars t, (hmac secret (natToString t)).data] := by
    rw [hdata]
    exact splitOnDot_append _ _ (natToChars_no_dot t) hnd
  have hsig_ne : (hmac secret (natToString t)).data ≠ [] := by
    intro hx
    exact hne (by cases hh : hmac secret (natToString t); simp_all)
  simp only [validateCSRFToken, hsplit]
  rw [if_neg (by
    push_neg
    exact ⟨natToChars_ne_nil t, hsig_ne⟩)]
  have hmk : (String.mk (natToChars t)) = natToString t := rfl
  rw [hmk, parseIntJS_natToString t]
  by_cases hage : (now : ℤ) - (t : ℤ) > 30 * 60 * 1000 ∨ (now : ℤ) - (t : ℤ) < 0
  · rw [if_pos (by simp only [decide_eq_true_eq]; rcases hage with h | h <;> (simp; omega))]
    constructor
    · intro hfalse
      exact absurd hfalse (by simp)
    · intro ⟨h1, h2⟩
      exfalso
      rcases hage with hage | hage <;> omega
  · rw [if_neg (by push_neg at hage; simp; omega)]
    rw [strMk_data]
    push_neg at hage
    constructor
    · intro _
      exact ⟨by omega, hage.1⟩
    · intro _
      simp

/-- Witness for `csrf_generated_token_window`: the token issued at `t = 1000`
validates at `t + 29m59s` and fails at `t + 30m01s` and at `now = 500`, a
time before issuance. -/
theorem csrf_generated_token_window_witness :
    validateCSRFToken (fun _ _ => "aa") "s"
        (generateCSRFToken (fun _ _ => "aa") "s" 1000) (1000 + 1799000) = true ∧
      validateCSRFToken (fun _ _ => "aa") "s"
        (generateCSRFToken (fun _ _ => "aa") "s" 1000) (1000 + 1801000) = false ∧
      validateCSRFToken (fun _ _ => "aa") "s"
        (generateCSRFToken (fun _ _ => "aa") "s" 1000) 500 = false := by
  refine ⟨?_, ?_, ?_⟩
  · exact (csrf_generated_token_window (fun _ _ => "aa") "s" 1000 (1000 + 1799000)
      (by decide) (by decide)).mpr ⟨by omega, by omega⟩
  · have h := csrf_generated_token_window (fun _ _ => "aa") "s" 1000 (1000 + 1801000)
      (by decide) (by decide)
    have hnot : ¬(1000 ≤ 1000 + 1801000 ∧
        ((1000 + 1801000 : ℕ) : ℤ) - (1000 : ℕ) ≤ 30 * 60 * 1000) := by
      push_neg
      intro _
      omega
    rcases Bool.eq_false_or_eq_true
        (validateCSRFToken (fun _ _ => "aa") "s"
          (generateCSRFToken (fun _ _ => "aa") "s" 1000) (1000 + 1801000)) with
      hb | hb
    · exact absurd (h.mp hb) hnot
    · exact hb
  · have h := csrf_generated_token_window (fun _ _ => "aa") "s" 1000 500
      (by decide) (by decide)
    have hnot : ¬((1000 : ℕ) ≤ 500 ∧
        ((500 : ℕ) : ℤ) - ((1000 : ℕ) : ℤ) ≤ 30 * 60 * 1000) := by
      push_neg
      intro hx
      omega
    rcases Bool.eq_false_or_eq_true
        (validateCSRFToken (fun _ _ => "aa") "s"
          (generateCSRFToken (fun _ _ => "aa") "s" 1000) 500) with hb | hb
    · exact absurd (h.mp hb) hnot
    · exact hb

/-! ## Base64 / base64url codec

`frontend/crypto.js` converts bytes to text with `btoa` over a
`String.fromCharCode` binary string, then makes the result URL-safe by
substituting `'+' → '-'`, `'/' → '_'` and stripping the trailing `'='`
padding (`arrayBufferToBase64`, crypto.js 211-222); `base64ToArrayBuffer`
(crypto.js 229-247) reverses the substitutions, re-adds padding from the
length and applies `atob`.  `btoa`/`atob` are platform primitives with a
fixed specification (RFC 4648 standard alphabet), embedded here directly:
`btoaChunks` and `atobBytes`.  Bytes are `List ℕ` with values `< 256`
(`btoa` throws outside latin1, so all inputs that occur satisfy this). -/

/-- The standard base64 alphabet used by `btoa`/`atob`. -/
def b64Alphabet : List Char :=
  ['A', 'B', 'C', 'D', 'E', 'F', 'G', 'H', 'I', 'J', 'K', 'L', 'M',
   'N', 'O', 'P', 'Q', 'R', 'S', 'T', 'U', 'V', 'W', 'X', 'Y', 'Z',
   'a', 'b', 'c', 'd', 'e', 'f', 'g', 'h', 'i', 'j', 'k', 'l', 'm',
   'n', 'o', 'p', 'q', 'r', 's', 't', 'u', 'v', 'w', 'x', 'y', 'z',
   '0', '1', '2', '3', '4', '5', '6', '7', '8', '9', '+', '/']

/-- Character for a 6-bit value. -/
def sextetChar (n : ℕ) : Char := b64Alphabet.getD n '?'

/-- 6-bit value of an alphabet character (`none` when not in the alphabet,
where `atob` throws). -/
def sextetOf? (c : Char) : Option ℕ := b64Alphabet.findIdx? (fun x => x == c)

/-- `btoa`: encode bytes in 3-byte groups into 4 characters each, with
`'='` padding for a 1- or 2-byte tail. -/
def btoaChunks : List ℕ → List Char
  | [] => []
  | [x] =>
    [sextetChar (x / 4), sextetChar (x % 4 * 16), '=', '=']
  | [x, y] =>
    [sextetChar (x / 4), sextetChar (x % 4 * 16 + y / 16),
     sextetChar (y % 16 * 4), '=']
  | x :: y :: z :: rest =>
    sextetChar (x / 4) :: sextetChar (x % 4 * 16 + y / 16) ::
      sextetChar (y % 16 * 4 + z / 64) :: sextetChar (z % 64) ::
      btoaChunks rest

/-- `atob`: decode 4-character groups back into bytes, honouring `'='`
padding at the end; `none` models the `InvalidCharacterError` throw. -/
def atobBytes : List Char → Option (List ℕ)
  | [] => some []
  | c1 :: c2 :: c3 :: c4 :: rest =>
    match sextetOf? c1, sextetOf? c2 with
    | some s1, some s2 =>
      if c3 = '=' then
        if c4 = '=' ∧ rest = [] then some [s1 * 4 + s2 / 16] else none
      else
        match sextetOf? c3 with
        | some s3 =>
          if c4 = '=' then
            if rest = [] then
              some [s1 * 4 + s2 / 16, s2 % 16 * 16 + s3 / 4]
            else none
          else
            match sextetOf? c4 with
            | some s4 =>
              match atobBytes rest with
              | some bs =>
                some ((s1 * 4 + s2 / 16) :: (s2 % 16 * 16 + s3 / 4) ::
                  (s3 % 4 * 64 + s4) :: bs)
              | none => none
            | none => none
        | none => none
    | _, _ => none
  | _ => none

/-- The `.replace(/\+/g, '-').replace(/\//g, '_')` substitution. -/
def urlChar (c : Char) : Char :=
  if c = '+' then '-' else if c = '/' then '_' else c

/-- The reverse substitution: dash back to `'+'`, underscore back to `'/'`. -/
def unUrlChar (c : Char) : Char :=
  if c = '-' then '+' else if c = '_' then '/' else c

/-- The `.replace(/=+$/, '')` strip of the trailing padding run. -/
def dropTrailingEq : List Char → List Char
  | [] => []
  | c :: cs =>
    let r := dropTrailingEq cs
    if c = '=' ∧ r = [] then [] else c :: r

/-- Re-adding padding from the length (crypto.js 236-239): `padding = 4 -
(length % 4)`, appended unless it is 4. -/
def repad (l : List Char) : List Char :=
  let padding := 4 - l.length % 4
  if padding = 4 then l else l ++ List.replicate padding '='

/-- `SecretShareCrypto.arrayBufferToBase64` (crypto.js 211-222): `btoa`,
URL-safe substitution, strip trailing `'='`. -/
def arrayBufferToBase64 (b : List ℕ) : String :=
  ⟨dropTrailingEq ((btoaChunks b).map urlChar)⟩

/-- `SecretShareCrypto.base64ToArrayBuffer` (crypto.js 229-247): reverse
substitution, re-pad, `atob`. -/
def base64ToArrayBuffer (s : String) : Option (List ℕ) :=
  atobBytes (repad (s.data.map unUrlChar))

/-- `base64urlEncode` of worker.ts 347-353; it removes every `'='` via a
global regex, which on `btoa` output (where `'='` is only trailing) agrees
with the frontend's trailing strip. -/
def base64urlEncodeW (b : List ℕ) : String :=
  ⟨((btoaChunks b).map urlChar).filter (fun c => ¬ c = '=')⟩

/-- `generateSecretId` (worker.ts 334-337): base64url of 32 random bytes;
the randomness is the `randomBytes` parameter. -/
def generateSecretId (randomBytes : List ℕ) : String :=
  base64urlEncodeW randomBytes

/-- `hashSecretId` (worker.ts 339-344): base64url of the SHA-256 digest of
the UTF-8 bytes of the id.  `sha : String → List ℕ` stands for the platform
`crypto.subtle.digest('SHA-256', utf8 ·)` primitive. -/
def hashSecretId (sha : String → List ℕ) (secretId : String) : String :=
  base64urlEncodeW (sha secretId)

set_option maxHeartbeats 1000000 in
theorem sextet_inv_fin : ∀ n : Fin 64, sextetOf? (sextetChar n.val) = some n.val := by
  decide

set_option maxHeartbeats 1000000 in
theorem sextetChar_ne_eq_fin : ∀ n : Fin 64, sextetChar n.val ≠ '=' := by
  decide

set_option maxHeartbeats 1000000 in
theorem goodChar_fin :
    ∀ n : Fin 64, unUrlChar (urlChar (sextetChar n.val)) = sextetChar n.val := by
  decide

theorem sextet_inv (n : ℕ) (h : n < 64) : sextetOf? (sextetChar n) = some n :=
  sextet_inv_fin ⟨n, h⟩

theorem sextetChar_ne_eq (n : ℕ) (h : n < 64) : sextetChar n ≠ '=' :=
  sextetChar_ne_eq_fin ⟨n, h⟩

theorem goodChar (n : ℕ) (h : n < 64) :
    unUrlChar (urlChar (sextetChar n)) = sextetChar n :=
  goodChar_fin ⟨n, h⟩

theorem urlChar_eq_eq_iff (c : Char) : urlChar c = '=' ↔ c = '=' := by
  constructor
  · intro h
    by_cases h1 : c = '+'
    · rw [urlChar, if_pos h1] at h
      exact absurd h (by decide)
    · by_cases h2 : c = '/'
      · rw [urlChar, if_neg h1, if_pos h2] at h
        exact absurd h (by decide)
      · rwa [urlChar, if_neg h1, if_neg h2] at h
  · intro h
    subst h
    decide

theorem dropTrailingEq_map_url (l : List Char) :
    dropTrailingEq (l.map urlChar) = (dropTrailingEq l).map urlChar := by
  induction l with
  | nil => rfl
  | cons c cs ih =>
    simp only [List.map_cons, dropTrailingEq, ih]
    by_cases hc : c = '='
    · by_cases hr : dropTrailingEq cs = []
      · rw [if_pos ⟨(urlChar_eq_eq_iff c).mpr hc, by rw [hr]; rfl⟩,
          if_pos ⟨hc, hr⟩]
        rfl
      · rw [if_neg (by
            intro hx
            exact hr (List.map_eq_nil_iff.mp hx.2)),
          if_neg (by intro hx; exact hr hx.2)]
        rfl
    · rw [if_neg (by
          intro hx
          exact hc ((urlChar_eq_eq_iff c).mp hx.1)),
        if_neg (by intro hx; exact hc hx.1)]
      rfl

theorem mem_dropTrailingEq (c : Char) (l : List Char)
    (h : c ∈ dropTrailingEq l) : c ∈ l := by
  induction l with
  | nil => simp [dropTrailingEq] at h
  | cons a cs ih =>
    simp only [dropTrailingEq] at h
    split at h
    · simp at h
    · rcases List.mem_cons.mp h with h | h
      · exact h ▸ List.mem_cons_self a cs
      · exact List.mem_cons_of_mem a (ih h)

theorem map_unUrl_of_good (l : List Char)
    (h : ∀ c ∈ l, unUrlChar (urlChar c) = c) :
    (l.map urlChar).map unUrlChar = l := by
  induction l with
  | nil => rfl
  | cons c cs ih =>
    simp only [List.map_cons]
    rw [h c (List.mem_cons_self c cs),
      ih (fun x hx => h x (List.mem_cons_of_mem c hx))]

/-- Every character that `btoa` produces maps through the URL-safe
substitution and back unchanged. -/
theorem btoaChunks_good (b : List ℕ) (hb : ∀ x ∈ b, x < 256) :
    ∀ c ∈ btoaChunks b, unUrlChar (urlChar c) = c := by
  induction b using btoaChunks.induct with
  | case1 => intro c hc; simp [btoaChunks] at hc
  | case2 x =>
    intro c hc
    have hx : x < 256 := hb x (by simp)
    simp only [btoaChunks, List.mem_cons, List.not_mem_nil, or_false] at hc
    rcases hc with hc | hc | hc | hc
    all_goals first
      | (subst hc; exact goodChar _ (by omega))
      | (subst hc; decide)
  | case3 x y =>
    intro c hc
    have hx : x < 256 := hb x (by simp)
    have hy : y < 256 := hb y (by simp)
    simp only [btoaChunks, List.mem_cons, List.not_mem_nil, or_false] at hc
    rcases hc with hc | hc | hc | hc
    all_goals first
      | (subst hc; exact goodChar _ (by omega))
      | (subst hc; decide)
  | case4 x y z rest ih =>
    intro c hc
    have hx : x < 256 := hb x (by simp)
    have hy : y < 256 := hb y (by simp)
    have hz : z < 256 := hb z (by simp)
    simp only [btoaChunks, List.mem_cons] at hc
    rcases hc with hc | hc | hc | hc | hc
    · subst hc; exact goodChar _ (by omega)
    · subst hc; exact goodChar _ (by omega)
    · subst hc; exact goodChar _ (by omega)
    · subst hc; exact goodChar _ (by omega)
    · exact ih (fun w hw => hb w (by simp [hw])) c hc

theorem dropTrailingEq_cons_ne (c : Char) (l : List Char) (hc : c ≠ '=') :
    dropTrailingEq (c :: l) ≠ [] := by
  simp only [dropTrailingEq]
  rw [if_neg (by intro hx; exact hc hx.1)]
  simp

theorem dropTrailingEq_append_ne_nil (u v : List Char)
    (hv : dropTrailingEq v ≠ []) :
    dropTrailingEq (u ++ v) = u ++ dropTrailingEq v := by
  induction u with
  | nil => rfl
  | cons c u' ih =>
    have hne : dropTrailingEq (u' ++ v) ≠ [] := by
      rw [ih]
      intro hx
      exact hv (List.append_eq_nil.mp hx).2
    show dropTrailingEq (c :: (u' ++ v)) = c :: (u' ++ dropTrailingEq v)
    simp only [dropTrailingEq]
    rw [if_neg (fun hx => hne hx.2), ih]

theorem repad_append4 (u w : List Char) (hu : u.length = 4) :
    repad (u ++ w) = u ++ repad w := by
  simp only [repad, List.length_append, hu]
  have hmod : (4 + w.length) % 4 = w.length % 4 := by omega
  rw [hmod]
  by_cases hp : 4 - w.length % 4 = 4
  · rw [if_pos hp, if_pos hp]
  · rw [if_neg hp, if_neg hp, List.append_assoc]

theorem dte4_2 (a b : Char) (ha : a ≠ '=') (hb : b ≠ '=') :
    dropTrailingEq [a, b, '=', '='] = [a, b] := by
  simp [dropTrailingEq, ha, hb]

theorem dte4_1 (a b c : Char) (ha : a ≠ '=') (hb : b ≠ '=') (hc : c ≠ '=') :
    dropTrailingEq [a, b, c, '='] = [a, b, c] := by
  simp [dropTrailingEq, ha, hb, hc]

theorem dte4_0 (a b c d : Char) (ha : a ≠ '=') (hb : b ≠ '=') (hc : c ≠ '=')
    (hd : d ≠ '=') : dropTrailingEq [a, b, c, d] = [a, b, c, d] := by
  simp [dropTrailingEq, ha, hb, hc, hd]

/-- Decoding after padding reconstruction inverts `btoa` followed by the
padding strip. -/
theorem atob_repad_dte (b : List ℕ) (hb : ∀ x ∈ b, x < 256) :
    atobBytes (repad (dropTrailingEq (btoaChunks b))) = some b := by
  induction b using btoaChunks.induct with
  | case1 => rfl
  | case2 x =>
    have hx : x < 256 := hb x (by simp)
    have h1 : x / 4 < 64 := by omega
    have h2 : x % 4 * 16 < 64 := by omega
    simp only [btoaChunks]
    rw [dte4_2 _ _ (sextetChar_ne_eq _ h1) (sextetChar_ne_eq _ h2)]
    have hrepad : repad [sextetChar (x / 4), sextetChar (x % 4 * 16)] =
        [sextetChar (x / 4), sextetChar (x % 4 * 16), '=', '='] := rfl
    rw [hrepad]
    simp only [atobBytes, sextet_inv _ h1, sextet_inv _ h2]
    simp only [if_true, and_self, reduceIte]
    simp only [Option.some.injEq, List.cons.injEq, and_true]
    omega
  | case3 x y =>
    have hx : x < 256 := hb x (by simp)
    have hy : y < 256 := hb y (by simp)
    have h1 : x / 4 < 64 := by omega
    have h2 : x % 4 * 16 + y / 16 < 64 := by omega
    have h3 : y % 16 * 4 < 64 := by omega
    simp only [btoaChunks]
    rw [dte4_1 _ _ _ (sextetChar_ne_eq _ h1) (sextetChar_ne_eq _ h2)
      (sextetChar_ne_eq _ h3)]
    have hrepad : repad [sextetChar (x / 4), sextetChar (x % 4 * 16 + y / 16),
        sextetChar (y % 16 * 4)] =
        [sextetChar (x / 4), sextetChar (x % 4 * 16 + y / 16),
          sextetChar (y % 16 * 4), '='] := rfl
    rw [hrepad]
    simp only [atobBytes, sextet_inv _ h1, sextet_inv _ h2, sextet_inv _ h3]
    rw [if_neg (sextetChar_ne_eq _ h3)]
    simp only [if_true, reduceIte, Option.some.injEq, List.cons.injEq, and_true]
    omega
  | case4 x y z rest ih =>
    have hx : x < 256 := hb x (by simp)
    have hy : y < 256 := hb y (by simp)
    have hz : z < 256 := hb z (by simp)
    have h1 : x / 4 < 64 := by omega
    have h2 : x % 4 * 16 + y / 16 < 64 := by omega
    have h3 : y % 16 * 4 + z / 64 < 64 := by omega
    have h4 : z % 64 < 64 := by omega
    have hrest : ∀ w ∈ rest, w < 256 := fun w hw => hb w (by simp [hw])
    have e1 : x / 4 * 4 + (x % 4 * 16 + y / 16) / 16 = x := by omega
    have e2 : (x % 4 * 16 + y / 16) % 16 * 16 + (y % 16 * 4 + z / 64) / 4 = y := by
      omega
    have e3 : (y % 16 * 4 + z / 64) % 4 * 64 + z % 64 = z := by omega
    by_cases hr : rest = []
    · subst hr
      simp only [btoaChunks]
      rw [dte4_0 _ _ _ _ (sextetChar_ne_eq _ h1) (sextetChar_ne_eq _ h2)
        (sextetChar_ne_eq _ h3) (sextetChar_ne_eq _ h4)]
      have hrepad : repad [sextetChar (x / 4), sextetChar (x % 4 * 16 + y / 16),
          sextetChar (y % 16 * 4 + z / 64), sextetChar (z % 64)] =
          [sextetChar (x / 4), sextetChar (x % 4 * 16 + y / 16),
            sextetChar (y % 16 * 4 + z / 64), sextetChar (z % 64)] := by
        rw [repad]
        norm_num
      rw [hrepad]
      simp only [atobBytes, sextet_inv _ h1, sextet_inv _ h2, sextet_inv _ h3,
        sextet_inv _ h4]
      rw [if_neg (sextetChar_ne_eq _ h3), if_neg (sextetChar_ne_eq _ h4)]
      simp only [atobBytes, e1, e2, e3]
    · have hhead : dropTrailingEq (btoaChunks rest) ≠ [] := by
        match rest, hr with
        | x1 :: r', _ =>
          have hx1 : x1 < 256 := hrest x1 (by simp)
          match r' with
          | [] =>
            simp only [btoaChunks]
            rw [dte4_2 _ _ (sextetChar_ne_eq _ (by omega))
              (sextetChar_ne_eq _ (by omega))]
            simp
          | [y1] =>
            simp only [btoaChunks]
            have hy1 : y1 < 256 := hrest y1 (by simp)
            rw [dte4_1 _ _ _ (sextetChar_ne_eq _ (by omega))
              (sextetChar_ne_eq _ (by omega)) (sextetChar_ne_eq _ (by omega))]
            simp
          | y1 :: z1 :: r'' =>
            simp only [btoaChunks]
            exact dropTrailingEq_cons_ne _ _ (sextetChar_ne_eq _ (by omega))
      have hchunk : btoaChunks (x :: y :: z :: rest) =
          [sextetChar (x / 4), sextetChar (x % 4 * 16 + y / 16),
            sextetChar (y % 16 * 4 + z / 64), sextetChar (z % 64)] ++
            btoaChunks rest := rfl
      rw [hchunk, dropTrailingEq_append_ne_nil _ _ hhead,
        repad_append4 _ _ (by simp)]
      show atobBytes (sextetChar (x / 4) :: sextetChar (x % 4 * 16 + y / 16) ::
          sextetChar (y % 16 * 4 + z / 64) :: sextetChar (z % 64) ::
          repad (dropTrailingEq (btoaChunks rest))) = some (x :: y :: z :: rest)
      simp only [atobBytes, sextet_inv _ h1, sextet_inv _ h2, sextet_inv _ h3,
        sextet_inv _ h4]
      rw [if_neg (sextetChar_ne_eq _ h3), if_neg (sextetChar_ne_eq _ h4)]
      rw [ih hrest]
      simp only [e1, e2, e3]

/-- Shared round-trip fact for the base64url codec, used both for the key
export/import mapping and inside the encrypt/decrypt round trip. -/
theorem base64_roundtrip_aux (b : List ℕ) (hb : ∀ x ∈ b, x < 256) :
    base64ToArrayBuffer (arrayBufferToBase64 b) = some b := by
  simp only [base64ToArrayBuffer, arrayBufferToBase64]
  rw [dropTrailingEq_map_url]
  rw [map_unUrl_of_good _ (fun c hc =>
    btoaChunks_good b hb c (mem_dropTrailingEq c _ hc))]
  exact atob_repad_dte b hb

/-- C8.  The key export/import text mapping round-trips exactly: decoding
the URL-safe base64 produced by `arrayBufferToBase64` returns the original
byte sequence, despite the encoder stripping `'='` padding and substituting
`'+'`/`'/'`. -/
theorem base64url_roundtrip (b : List ℕ) (hb : ∀ x ∈ b, x < 256) :
    base64ToArrayBuffer (arrayBufferToBase64 b) = some b :=
  base64_roundtrip_aux b hb

/-- Witness for `base64url_roundtrip` on a concrete byte sequence exercising
all three substitutions (a 5-byte input has stripped padding, and the bytes
are chosen so the encoding contains `'-'` and `'_'`). -/
theorem base64url_roundtrip_witness :
    base64ToArrayBuffer (arrayBufferToBase64 [251, 239, 190, 0, 255]) =
      some [251, 239, 190, 0, 255] :=
  base64url_roundtrip [251, 239, 190, 0, 255] (by decide)

/-! ## Encryption engine (`SecretShareCrypto.encrypt` and `.decrypt`,
crypto.js 106-164)

`encrypt` draws a fresh 12-byte IV, AES-GCM-encrypts the UTF-8 bytes of the
plaintext, prepends the IV to the AEAD output and base64url-encodes the
whole; `decrypt` base64url-decodes, splits off the first 12 bytes as the IV,
AEAD-decrypts the remainder and UTF-8-decodes.  The AES-GCM primitive and
the text codec (`crypto.subtle.encrypt` and `.decrypt`, `TextEncoder` and
`TextDecoder`) are platform functions, passed as parameters
`aeadEnc`/`aeadDec` (key, nonce, data) and `utf8Enc`/`utf8Dec`; their
defining round-trip properties are hypotheses of the theorem.  The fresh IV
is the explicit `iv` parameter (crypto.js always regenerates it, never
accepts one from outside). -/

/-- `SecretShareCrypto.encrypt` (crypto.js 106-131). -/
def encrypt (aeadEnc : List ℕ → List ℕ → List ℕ → List ℕ)
    (utf8Enc : String → List ℕ) (plaintext : String) (key iv : List ℕ) :
    String :=
  arrayBufferToBase64 (iv ++ aeadEnc key iv (utf8Enc plaintext))

/-- `SecretShareCrypto.decrypt` (crypto.js 139-164); every failure (bad
base64, AEAD authentication failure) is caught and surfaced as the single
`DecryptionFailed` condition, modelled as `none`. -/
def decrypt (aeadDec : List ℕ → List ℕ → List ℕ → Option (List ℕ))
    (utf8Dec : List ℕ → String) (encryptedData : String) (key : List ℕ) :
    Option String :=
  match base64ToArrayBuffer encryptedData with
  | none => none
  | some combined =>
    match aeadDec key (combined.take 12) (combined.drop 12) with
    | none => none
    | some pt => some (utf8Dec pt)

/-- C7.  For every plaintext and key, decrypting the output of `encrypt`
with the same key returns the plaintext: the 12-byte nonce prepended by
`encrypt` is split off again by `decrypt`, and the base64url and UTF-8
codecs round-trip around the AEAD primitive, whose own round trip (and byte
range) is assumed of the platform. -/
theorem encrypt_decrypt_roundtrip
    (aeadEnc : List ℕ → List ℕ → List ℕ → List ℕ)
    (aeadDec : List ℕ → List ℕ → List ℕ → Option (List ℕ))
    (utf8Enc : String → List ℕ) (utf8Dec : List ℕ → String)
    (p : String) (key iv : List ℕ)
    (hAead : aeadDec key iv (aeadEnc key iv (utf8Enc p)) = some (utf8Enc p))
    (hUtf : utf8Dec (utf8Enc p) = p)
    (hivLen : iv.length = 12)
    (hivB : ∀ x ∈ iv, x < 256)
    (hctB : ∀ x ∈ aeadEnc key iv (utf8Enc p), x < 256) :
    decrypt aeadDec utf8Dec (encrypt aeadEnc utf8Enc p key iv) key = some p := by
  have hby : ∀ x ∈ iv ++ aeadEnc key iv (utf8Enc p), x < 256 := by
    intro x hx
    rcases List.mem_append.mp hx with hmem | hmem
    · exact hivB x hmem
    · exact hctB x hmem
  unfold decrypt encrypt
  simp only [base64_roundtrip_aux _ hby]
  rw [List.take_left' hivLen, List.drop_left' hivLen]
  simp only [hAead]
  rw [hUtf]

/-- Witness for `encrypt_decrypt_roundtrip`, instantiating the platform
primitives with concrete functions satisfying the hypotheses. -/
theorem encrypt_decrypt_roundtrip_witness :
    decrypt (fun _ _ c => some c) (fun l => ⟨l.map Char.ofNat⟩)
        (encrypt (fun _ _ pt => pt) (fun s => s.data.map Char.toNat) "hi" [1]
          (List.replicate 12 0)) [1] = some "hi" :=
  encrypt_decrypt_roundtrip (fun _ _ pt => pt) (fun _ _ c => some c)
    (fun s => s.data.map Char.toNat) (fun l => ⟨l.map Char.ofNat⟩)
    "hi" [1] (List.replicate 12 0) rfl (by decide) (by decide) (by decide)
    (by decide)

/-! ## Secret creation (`handleCreateSecret`, worker.ts 103-182)

After JSON parsing, the handler checks for missing fields (JS falsiness for
the strings, `=== undefined` for the numbers, so `0` passes the missing
check and fails the range check), validates `1 ≤ maxViews ≤ 100` and
`1 ≤ expirationHours ≤ 8760`, validates the CSRF token, and only then
generates an id, hashes it and writes the record.  The numeric fields are
JavaScript numbers with no integrality check; they are modelled as `ℚ`
(every value reachable through JSON in these claims is representable).  The
KV namespace is an association list keyed by the hashed id; the TTL passed
to `put` is enforced by the store, not by this code, and is not modelled. -/

/-- The parsed body of a create request (`interface CreateSecretRequest`,
worker.ts 14-19); `none` models an absent (`undefined`) numeric field. -/
structure CreateSecretRequest where
  encryptedData : String
  maxViews : Option ℚ
  expirationHours : Option ℚ
  csrfToken : String

/-- The stored record as written by the create path (`interface SecretData`
with JavaScript `number` fields kept as `ℚ`, since create performs no
integrality check). -/
structure SecretDataJS where
  encryptedData : String
  maxViews : ℚ
  viewCount : ℚ
  createdAt : ℕ
deriving DecidableEq, Repr

/-- The KV namespace holding the created records, keyed by hashed id;
`kvPut` shadows like a KV overwrite. -/
abbrev KVStore := List (String × SecretDataJS)

/-- Possible responses of `handleCreateSecret`: the 400s (missing fields,
out-of-range `maxViews`, out-of-range `expirationHours`), the 403 (invalid
CSRF token), the 500 (KV `put` threw), and the 200 carrying the plain
(un-hashed) id, `expiresAt` and `maxViews`. -/
inductive CreateResult where
  | missingFields
  | badMaxViews
  | badExpiration
  | invalidCSRF
  | storeFailure
  | created (secretId : String) (expiresAt : ℚ) (maxViews : ℚ)
deriving DecidableEq, Repr

/-- Whether a create response is one of the 400 validation rejections. -/
def isValidationError : CreateResult → Bool
  | .missingFields => true
  | .badMaxViews => true
  | .badExpiration => true
  | _ => false

/-- `handleCreateSecret` (worker.ts 103-182) after JSON parsing.  `sha` is
the SHA-256 primitive used by `hashSecretId`, `hmac` the HMAC primitive of
the CSRF check, `now` is `Date.now()`, `newId` the id produced by
`generateSecretId`'s randomness, and `putOk` tells whether the KV `put`
throws.  Returns the response and the store afterwards. -/
def handleCreateSecret (sha : String → List ℕ)
    (hmac : String → String → String) (csrfSecret : String) (now : ℕ)
    (newId : String) (putOk : Bool) (req : CreateSecretRequest)
    (store : KVStore) : CreateResult × KVStore :=
  match req.maxViews, req.expirationHours with
  | some mv, some eh =>
    if req.encryptedData = "" ∨ req.csrfToken = "" then (.missingFields, store)
    else if mv < 1 ∨ mv > 100 then (.badMaxViews, store)
    else if eh < 1 ∨ eh > 8760 then (.badExpiration, store)
    else if validateCSRFToken hmac csrfSecret req.csrfToken now then
      let hashedId := hashSecretId sha newId
      let record : SecretDataJS := ⟨req.encryptedData, mv, 0, now⟩
      if putOk then
        (.created newId ((now : ℚ) + eh * 3600 * 1000) mv,
          (hashedId, record) :: store)
      else (.storeFailure, store)
    else (.invalidCSRF, store)
  | _, _ => (.missingFields, store)

/-- C5.  A create request whose `maxViews` lies outside `[1, 100]` or whose
`expirationHours` lies outside `[1, 8760]` is answered with a validation
error (a 400), and the store is untouched: no write happens before the
bounds are checked. -/
theorem create_out_of_range_rejected (sha : String → List ℕ)
    (hmac : String → String → String) (csrfSecret : String) (now : ℕ)
    (newId : String) (putOk : Bool) (req : CreateSecretRequest)
    (store : KVStore)
    (h : (∃ v, req.maxViews = some v ∧ (v < 1 ∨ 100 < v)) ∨
      (∃ e, req.expirationHours = some e ∧ (e < 1 ∨ 8760 < e))) :
    isValidationError
        (handleCreateSecret sha hmac csrfSecret now newId putOk req store).1 =
        true ∧
      (handleCreateSecret sha hmac csrfSecret now newId putOk req store).2 =
        store := by
  rcases h with ⟨v, hv, hvr⟩ | ⟨e, he, her⟩
  · rcases heh : req.expirationHours with _ | eh
    · simp [handleCreateSecret, hv, heh, isValidationError]
    · simp only [handleCreateSecret, hv, heh]
      by_cases hmiss : req.encryptedData = "" ∨ req.csrfToken = ""
      · rw [if_pos hmiss]
        exact ⟨rfl, rfl⟩
      · rw [if_neg hmiss]
        rw [if_pos hvr]
        exact ⟨rfl, rfl⟩
  · rcases hmv : req.maxViews with _ | mv
    · simp [handleCreateSecret, hmv, isValidationError]
    · simp only [handleCreateSecret, hmv, he]
      by_cases hmiss : req.encryptedData = "" ∨ req.csrfToken = ""
      · rw [if_pos hmiss]
        exact ⟨rfl, rfl⟩
      · rw [if_neg hmiss]
        by_cases hrange : mv < 1 ∨ mv > 100
        · rw [if_pos hrange]
          exact ⟨rfl, rfl⟩
        · rw [if_neg hrange]
          rw [if_pos her]
          exact ⟨rfl, rfl⟩

/-- Witness for `create_out_of_range_rejected`: `maxViews = 0` is rejected
with the store untouched. -/
theorem create_out_of_range_rejected_witness :
    isValidationError
        (handleCreateSecret (fun _ => []) (fun _ _ => "aa") "s" 5 "id" true
          ⟨"data", some 0, some 1, "0.aa"⟩ []).1 = true ∧
      (handleCreateSecret (fun _ => []) (fun _ _ => "aa") "s" 5 "id" true
        ⟨"data", some 0, some 1, "0.aa"⟩ []).2 = [] :=
  create_out_of_range_rejected (fun _ => []) (fun _ _ => "aa") "s" 5 "id" true
    ⟨"data", some 0, some 1, "0.aa"⟩ []
    (Or.inl ⟨0, rfl, Or.inl (by norm_num)⟩)

/-- C10.  The bounds validation checks only the numeric range, not
integrality: a request whose `maxViews` is a non-integer in `[1, 100]` and
whose `expirationHours` is a non-integer in `[1, 8760]` is accepted, and the
record is stored with `maxViews` unchanged (the non-integer value itself). -/
theorem create_accepts_noninteger (sha : String → List ℕ)
    (hmac : String → String → String) (csrfSecret : String) (now : ℕ)
    (newId : String) (req : CreateSecretRequest) (store : KVStore) (v e : ℚ)
    (hdata : req.encryptedData ≠ "") (htok : req.csrfToken ≠ "")
    (hmv : req.maxViews = some v) (heh : req.expirationHours = some e)
    (_hvint : v.den ≠ 1) (h1 : 1 ≤ v) (h2 : v ≤ 100)
    (_heint : e.den ≠ 1) (h3 : 1 ≤ e) (h4 : e ≤ 8760)
    (hcsrf : validateCSRFToken hmac csrfSecret req.csrfToken now = true) :
    (handleCreateSecret sha hmac csrfSecret now newId true req store).1 =
        CreateResult.created newId ((now : ℚ) + e * 3600 * 1000) v ∧
      (handleCreateSecret sha hmac csrfSecret now newId true req store).2 =
        (hashSecretId sha newId, ⟨req.encryptedData, v, 0, now⟩) :: store := by
  simp only [handleCreateSecret, hmv, heh]
  rw [if_neg (by
    intro hx
    rcases hx with hx | hx
    · exact hdata hx
    · exact htok hx)]
  rw [if_neg (by
    intro hx
    rcases hx with hx | hx <;> linarith)]
  rw [if_neg (by
    intro hx
    rcases hx with hx | hx <;> linarith)]
  rw [if_pos hcsrf]
  rw [if_pos trivial]
  exact ⟨rfl, rfl⟩

/-- Witness for `create_accepts_noninteger`: `maxViews = 5/2` and
`expirationHours = 3/2` are accepted, and the stored record carries
`maxViews = 5/2` unchanged. -/
theorem create_accepts_noninteger_witness :
    (handleCreateSecret (fun _ => []) (fun _ _ => "aa") "s" 5 "id" true
        ⟨"data", some (5 / 2 : ℚ), some (3 / 2 : ℚ), "0.aa"⟩ []).1 =
        CreateResult.created "id" ((5 : ℚ) + (3 / 2 : ℚ) * 3600 * 1000)
          (5 / 2 : ℚ) ∧
      (handleCreateSecret (fun _ => []) (fun _ _ => "aa") "s" 5 "id" true
        ⟨"data", some (5 / 2 : ℚ), some (3 / 2 : ℚ), "0.aa"⟩ []).2 =
        [(hashSecretId (fun _ => []) "id", ⟨"data", (5 / 2 : ℚ), 0, 5⟩)] :=
  create_accepts_noninteger (fun _ => []) (fun _ _ => "aa") "s" 5 "id"
    ⟨"data", some (5 / 2 : ℚ), some (3 / 2 : ℚ), "0.aa"⟩ [] (5 / 2) (3 / 2)
    (by decide) (by decide) rfl rfl (by norm_num) (by norm_num) (by norm_num)
    (by norm_num) (by norm_num) (by norm_num) (by decide)

end SecretShare
